import Mathlib

/-!
Verification of the LFD pick-sequence node
(`lfd_data_collection/LFD.py`, class `LFDUser`).

The node's sequencing state is two integer fields (`excecution_stage`,
`distance_count`).  The two topic callbacks either return normally, raise
`SystemExit` (which ends the surrounding `rclpy.spin` wait), or raise an
uncaught parse exception.  All numeric payloads in the program are decimal
text parsed by `float(...)`; they are modelled here as exact rationals,
which agrees with IEEE semantics at every comparison the claims touch
(all compared values and thresholds are small decimals far from the
strict-inequality boundaries, and the boundaries 100, 200, 2000 are
exactly representable).
-/

/-! ### Characters and digit strings -/

/-- ASCII decimal digit test: the `\d` of the pattern in
`distance_listener_callback` (sensor payloads are ASCII). -/
def isDigit (c : Char) : Bool := 48 ≤ c.toNat && c.toNat ≤ 57

/-- Numeric value of a decimal digit character. -/
def charVal (c : Char) : Nat := c.toNat - 48

/-- Value of a big-endian list of decimal digit characters. -/
def digitsVal (l : List Char) : Nat := l.foldl (fun a c => 10 * a + charVal c) 0

/-! ### The regex `(?:-*\d+)(\.*)(\d*)(?!.*\d)` of `distance_listener_callback`

`re.search` scans for the leftmost start position admitting a match.  At a
given position the pattern is `-*` then `\d+` then `\.*` then `\d*`, all
greedy, followed by the lookahead "no digit occurs later in the string".
Backtracking a greedy quantifier here can never produce a match that the
all-greedy attempt misses: giving back a `-` makes `\d+` start on a `-`,
and giving back a digit or dot leaves that digit (or the following
digits) inside the lookahead region, so every shorter attempt fails
whenever the greedy one does.  The matcher below therefore takes each
quantifier greedily. -/

/-- The lookahead `(?!.*\d)`: no digit anywhere in the remainder. -/
def noDigit (l : List Char) : Bool := l.all (fun c => !(isDigit c))

/-- Attempt the pattern at the head of `l`; returns the matched
characters (`group(0)`). -/
def matchAt (l : List Char) : Option (List Char) :=
  let hy := l.takeWhile (fun c => c == '-')
  let s1 := l.dropWhile (fun c => c == '-')
  let d1 := s1.takeWhile isDigit
  let s2 := s1.dropWhile isDigit
  if d1.isEmpty then none
  else
    let dots := s2.takeWhile (fun c => c == '.')
    let s3 := s2.dropWhile (fun c => c == '.')
    let d2 := s3.takeWhile isDigit
    let s4 := s3.dropWhile isDigit
    if noDigit s4 then some (hy ++ d1 ++ dots ++ d2) else none

/-- `re.search`: try successive start positions, leftmost match wins. -/
def reSearch : List Char → Option (List Char)
  | [] => none
  | c :: rest =>
    match matchAt (c :: rest) with
    | some m => some m
    | none => reSearch rest

/-! ### Python `float(...)` on the matched text -/

/-- Exact rational value `±(d1 . d2)` of a sign flag and two digit runs. -/
def ratVal (neg : Bool) (d1 d2 : List Char) : Rat :=
  let num : Int := Int.ofNat (digitsVal d1 * 10 ^ d2.length + digitsVal d2)
  mkRat (if neg then -num else num) (10 ^ d2.length)

/-- Python `float` restricted to the shapes `re.search` can hand it:
an optional single `-`, a digit run, optionally one `.` and a digit run
(one of the two runs nonempty).  Anything else (`--12`, `1..2`, ...)
raises `ValueError`, i.e. returns `none`. -/
def pyFloat (l : List Char) : Option Rat :=
  let neg := l.headI == '-'
  let body := if neg then l.tail else l
  let d1 := body.takeWhile isDigit
  let s2 := body.dropWhile isDigit
  match s2 with
  | [] => if d1.isEmpty then none else some (ratVal neg d1 [])
  | c :: s3 =>
    if c == '.' then
      let d2 := s3.takeWhile isDigit
      let s4 := s3.dropWhile isDigit
      if s4.isEmpty then
        if d1.isEmpty && d2.isEmpty then none else some (ratVal neg d1 d2)
      else none
    else none

/-- `float(re.search("(?:-*\d+)(\.*)(\d*)(?!.*\d)", msg).group(0))`:
`none` when either step raises (`AttributeError` on no match,
`ValueError` on an unparsable match); both are uncaught in the source. -/
def extractNumber (s : String) : Option Rat :=
  match reSearch s.data with
  | none => none
  | some m => pyFloat m

/-! ### Sequencer state and the two topic callbacks -/

/-- The mutable sequencing fields of `LFDUser`:
`excecution_stage` (0 = awaiting proximity, 1 = awaiting suction; the
source spelling is kept) and `distance_count`. -/
structure LFDState where
  excecution_stage : Nat
  distance_count : Nat
deriving DecidableEq

/-- Outcome of one callback invocation: normal return, `raise SystemExit`
(ends the enclosing `rclpy.spin`), or an uncaught parse exception
(`AttributeError` / `ValueError`). -/
inductive CbResult where
  | normal (st : LFDState)
  | exit (st : LFDState)
  | parseError (st : LFDState)
deriving DecidableEq

/-- The state carried by a callback outcome. -/
def stateOf : CbResult → LFDState
  | .normal st => st
  | .exit st => st
  | .parseError st => st

/-- `distance_listener_callback` (LFD.py lines 76-88). -/
def distance_listener_callback (st : LFDState) (msg : String) : CbResult :=
  if st.excecution_stage ≠ 0 then .normal st
  else if st.distance_count = 10 then .exit { st with excecution_stage := 1 }
  else
    match extractNumber msg with
    | none => .parseError st
    | some v =>
      if 100 < v ∧ v < 200 then .normal { st with distance_count := st.distance_count + 1 }
      else .normal { st with distance_count := 0 }

/-- A pressure message: the three channel values `msg.data[0..2]`
(`Float32MultiArray` with one value per suction cup, spec section 3). -/
structure PressureMsg where
  d0 : Rat
  d1 : Rat
  d2 : Rat
deriving DecidableEq

/-- `msg.data[0] + msg.data[1] + msg.data[2]`. -/
def psum (p : PressureMsg) : Rat := p.d0 + p.d1 + p.d2

/-- `pressure_listener_callback` (LFD.py lines 90-97). -/
def pressure_listener_callback (st : LFDState) (msg : PressureMsg) : CbResult :=
  if st.excecution_stage ≠ 1 then .normal st
  else if psum msg < 2000 then .exit st
  else .normal st

/-! ### Dispatch of a message list through a callback (one `spin` wait) -/

/-- Result of feeding a list of messages, in order, to a callback:
either every message was handled and the node is still waiting, or some
message raised `SystemExit` (the messages after it are `rest`), or some
message raised a parse exception. -/
inductive RunResult (μ : Type) where
  | running (st : LFDState)
  | exited (st : LFDState) (rest : List μ)
  | failed (st : LFDState) (rest : List μ)
deriving DecidableEq

/-- Deliver distance messages one at a time, as `rclpy.spin` does. -/
def processDist (st : LFDState) : List String → RunResult String
  | [] => .running st
  | m :: rest =>
    match distance_listener_callback st m with
    | .normal st' => processDist st' rest
    | .exit st' => .exited st' rest
    | .parseError st' => .failed st' rest

/-- Deliver pressure messages one at a time. -/
def processPress (st : LFDState) : List PressureMsg → RunResult PressureMsg
  | [] => .running st
  | m :: rest =>
    match pressure_listener_callback st m with
    | .normal st' => processPress st' rest
    | .exit st' => .exited st' rest
    | .parseError st' => .failed st' rest

/-! ### `proxy_pick_sequence` (LFD.py lines 112-166)

The body is straight-line code around two blocking `rclpy.spin` waits.
Each wait ends only when an exception unwinds `spin`: `SystemExit`
raised by a callback when its threshold test passes, `KeyboardInterrupt`
from an operator Ctrl+C, or an uncaught parse exception from
`distance_listener_callback`.  The first wait is wrapped in
`try ... except SystemExit` (line 132), the second in
`try ... except (SystemExit, KeyboardInterrupt)` (line 143); any
exception not named there propagates and aborts the function.  The
function is modelled as the trace of externally visible events it
produces, `Except.error` carrying the partial trace when an exception
escapes. -/

/-- How a `rclpy.spin` wait ended. -/
inductive SpinEnd where
  | systemExit
  | keyboardInterrupt
  | parseFailure
deriving DecidableEq

/-- Externally visible events of one pick invocation. -/
inductive Event where
  | recorderStart
  | distanceWaitDone
  | vacuumCmd (isOn : Bool)
  | pressureWaitDone
  | fingersCmd (engaged : Bool)
  | operatorConfirm
  | recorderStop
deriving DecidableEq

/-- `proxy_pick_sequence`, parameterised by how each of the two waits
ended.  Order of the source: start rosbag; spin until the distance
callback exits (only `SystemExit` caught); vacuum on; spin until the
pressure callback exits (`SystemExit` and `KeyboardInterrupt` caught);
fingers close; operator prompt; fingers open; vacuum off; stop rosbag. -/
def proxy_pick_sequence (w1 w2 : SpinEnd) : Except (List Event) (List Event) :=
  match w1 with
  | SpinEnd.systemExit =>
    match w2 with
    | SpinEnd.parseFailure =>
      Except.error [Event.recorderStart, Event.distanceWaitDone, Event.vacuumCmd true]
    | _ =>
      Except.ok [Event.recorderStart, Event.distanceWaitDone, Event.vacuumCmd true,
        Event.pressureWaitDone, Event.fingersCmd true, Event.operatorConfirm,
        Event.fingersCmd false, Event.vacuumCmd false, Event.recorderStop]
  | _ => Except.error [Event.recorderStart]

/-- The trace of a pick invocation that runs to completion. -/
def fullTrace : List Event :=
  [Event.recorderStart, Event.distanceWaitDone, Event.vacuumCmd true,
    Event.pressureWaitDone, Event.fingersCmd true, Event.operatorConfirm,
    Event.fingersCmd false, Event.vacuumCmd false, Event.recorderStop]

/-- Actuator-service calls among the events. -/
def isActuatorCmd : Event → Bool
  | Event.vacuumCmd _ => true
  | Event.fingersCmd _ => true
  | _ => false

/-! ### Rosbag destination naming (LFD.py lines 116-120)

`rosbag_number` starts at 1 and increments while
`os.path.exists(dir + datetime_simplified() + "_" + str(rosbag_number))`.
The date-derived directory-plus-date text is an opaque `pre` here; the
filesystem is a finite list of existing path names.  The loop is given
`disk.length + 1` fuel, which is proved sufficient below. -/

/-- Decimal digit character, as produced by Python `str` on a digit. -/
def digitChar (d : Nat) : Char :=
  if d = 0 then '0' else if d = 1 then '1' else if d = 2 then '2'
  else if d = 3 then '3' else if d = 4 then '4' else if d = 5 then '5'
  else if d = 6 then '6' else if d = 7 then '7' else if d = 8 then '8' else '9'

/-- Decimal digits of `n`, most significant first (`f` is fuel). -/
def natDigitsFuel : Nat → Nat → List Char
  | 0, _ => []
  | f + 1, n =>
    if n < 10 then [digitChar n]
    else natDigitsFuel f (n / 10) ++ [digitChar (n % 10)]

/-- Python `str` on a natural number. -/
def natToStr (n : Nat) : String := ⟨natDigitsFuel (n + 1) n⟩

/-- The candidate destination path for suffix `n`. -/
def bagName (pre : String) (n : Nat) : String := pre ++ "_" ++ natToStr n

/-- The `while os.path.exists(...)` loop, with explicit fuel. -/
def bagLoop (disk : List String) (pre : String) : Nat → Nat → Nat
  | 0, n => n
  | f + 1, n => if bagName pre n ∈ disk then bagLoop disk pre f (n + 1) else n

/-- The suffix chosen for the recording session. -/
def rosbag_number (disk : List String) (pre : String) : Nat :=
  bagLoop disk pre (disk.length + 1) 1

/-! ### Helper lemmas: the distance wait -/

/-- A distance reading is in the acceptance band: it parses and the
parsed value lies strictly inside (100, 200). -/
def goodB (m : String) : Bool :=
  match extractNumber m with
  | some v => decide (100 < v) && decide (v < 200)
  | none => false

/-- Length of the run of in-band readings at the end of a message list. -/
def trailLen (msgs : List String) : Nat := (msgs.reverse.takeWhile goodB).length

/-- The wait is still running and no transition is pending. -/
def noPending : RunResult String → Bool
  | .running st => !(st.distance_count == 10)
  | _ => false

theorem distance_cb_normal_stage {st st' : LFDState} {m : String}
    (h : distance_listener_callback st m = .normal st') :
    st'.excecution_stage = st.excecution_stage := by
  unfold distance_listener_callback at h
  split at h
  · cases h; rfl
  · split at h
    · simp at h
    · split at h
      · simp at h
      · split at h <;> (cases h; rfl)

theorem processDist_stage (msgs : List String) : ∀ st st' : LFDState,
    processDist st msgs = .running st' → st'.excecution_stage = st.excecution_stage := by
  induction msgs with
  | nil => intro st st' h; cases h; rfl
  | cons m tl ih =>
    intro st st' h
    simp only [processDist] at h
    split at h
    · next s hcb => exact (ih s st' h).trans (distance_cb_normal_stage hcb)
    · simp at h
    · simp at h

theorem processDist_append_running {xs : List String} {st st' : LFDState}
    (h : processDist st xs = .running st') (ys : List String) :
    processDist st (xs ++ ys) = processDist st' ys := by
  induction xs generalizing st with
  | nil => cases h; rfl
  | cons m tl ih =>
    simp only [processDist] at h
    simp only [List.cons_append, processDist]
    split at h
    · exact ih h
    · simp at h
    · simp at h

theorem processDist_append_inv {xs ys : List String} {st st' : LFDState}
    (h : processDist st (xs ++ ys) = .running st') :
    ∃ st'', processDist st xs = .running st'' ∧ processDist st'' ys = .running st' := by
  induction xs generalizing st with
  | nil => exact ⟨st, rfl, h⟩
  | cons m tl ih =>
    simp only [List.cons_append, processDist] at h
    simp only [processDist]
    split at h
    · next s hcb =>
      obtain ⟨st'', h1, h2⟩ := ih h
      exact ⟨st'', h1, h2⟩
    · simp at h
    · simp at h

theorem processDist_singleton {st st' : LFDState} {m : String}
    (h : processDist st [m] = .running st') :
    distance_listener_callback st m = .normal st' := by
  simp only [processDist] at h
  split at h
  · next s hcb => cases h; exact hcb
  · simp at h
  · simp at h

theorem trailLen_append (ms : List String) (m : String) :
    trailLen (ms ++ [m]) = if goodB m then trailLen ms + 1 else 0 := by
  simp only [trailLen, List.reverse_append, List.reverse_cons, List.reverse_nil,
    List.nil_append, List.singleton_append, List.takeWhile_cons]
  cases h : goodB m <;> simp [h]

theorem takeWhile_length_le {α : Type} (p : α → Bool) (l : List α) :
    (l.takeWhile p).length ≤ l.length := by
  induction l with
  | nil => simp
  | cons a tl ih =>
    rw [List.takeWhile_cons]
    cases p a
    · simp
    · simp
      omega

theorem trailLen_le_length (msgs : List String) : trailLen msgs ≤ msgs.length := by
  simpa [trailLen] using takeWhile_length_le goodB msgs.reverse

theorem processDist_count (msgs : List String) : ∀ st' : LFDState,
    processDist ⟨0, 0⟩ msgs = .running st' →
    st'.distance_count = trailLen msgs ∧ trailLen msgs ≤ 10 := by
  induction msgs using List.reverseRecOn with
  | nil => intro st' h; cases h; exact ⟨rfl, by decide⟩
  | append_singleton ms m ih =>
    intro st' h
    obtain ⟨st'', hms, hm⟩ := processDist_append_inv h
    have hcb := processDist_singleton hm
    obtain ⟨hcount, hle⟩ := ih st'' hms
    have hstage : st''.excecution_stage = 0 := processDist_stage ms ⟨0, 0⟩ st'' hms
    rw [trailLen_append]
    unfold distance_listener_callback at hcb
    rw [if_neg (by simp [hstage])] at hcb
    by_cases h10 : st''.distance_count = 10
    · rw [if_pos h10] at hcb; simp at hcb
    · rw [if_neg h10] at hcb
      cases hex : extractNumber m with
      | none => simp [hex] at hcb
      | some v =>
        simp only [hex] at hcb
        by_cases hv : 100 < v ∧ v < 200
        · rw [if_pos hv] at hcb
          cases hcb
          have hg : goodB m = true := by
            simp [goodB, hex, hv.1, hv.2]
          rw [if_pos hg]
          constructor
          · simpa using hcount
          · omega
        · rw [if_neg hv] at hcb
          cases hcb
          have hg : goodB m = false := by
            simp only [goodB, hex]
            rcases Decidable.not_and_iff_or_not.mp hv with h' | h' <;> simp [h']
          rw [if_neg (by simp [hg])]
          exact ⟨rfl, by omega⟩

theorem takeWhile_length_ge_iff {α : Type} (p : α → Bool) :
    ∀ (l : List α) (k : Nat), k ≤ l.length →
    (k ≤ (l.takeWhile p).length ↔ (l.take k).all p = true) := by
  intro l
  induction l with
  | nil =>
    intro k hk
    have : k = 0 := by simpa using hk
    simp [this]
  | cons a tl ih =>
    intro k hk
    cases k with
    | zero => simp
    | succ k' =>
      rw [List.takeWhile_cons, List.take_succ_cons]
      cases hpa : p a
      · simp [hpa]
      · simp only [hpa, if_true, List.length_cons, Nat.succ_le_succ_iff,
          List.all_cons, Bool.true_and]
        exact ih k' (by simpa using hk)

theorem trailLen_ten_iff (msgs : List String) (hlen : 10 ≤ msgs.length) :
    10 ≤ trailLen msgs ↔ (msgs.drop (msgs.length - 10)).all goodB = true := by
  rw [trailLen, takeWhile_length_ge_iff goodB msgs.reverse 10 (by simpa using hlen),
    List.take_reverse, List.all_reverse]

theorem distance_cb_stage_zero_not_ten {st : LFDState} (h0 : st.excecution_stage = 0)
    (h10 : st.distance_count ≠ 10) (m : String) :
    (stateOf (distance_listener_callback st m)).excecution_stage = 0 := by
  unfold distance_listener_callback
  rw [if_neg (by simp [h0]), if_neg h10]
  cases hex : extractNumber m with
  | none => simpa [stateOf] using h0
  | some v =>
    by_cases hv : 100 < v ∧ v < 200
    · simpa [stateOf, if_pos hv] using h0
    · simpa [stateOf, if_neg hv] using h0

theorem distance_cb_exit_of_ten {st : LFDState} (h0 : st.excecution_stage = 0)
    (h10 : st.distance_count = 10) (m : String) :
    distance_listener_callback st m = .exit ⟨1, st.distance_count⟩ := by
  unfold distance_listener_callback
  rw [if_neg (by simp [h0]), if_pos h10]

/-- The distance messages of end-to-end scenario 2: nine in-band
readings, one out-of-band reading, ten in-band readings. -/
def scenario2 : List String :=
  List.replicate 9 "150" ++ "250" :: List.replicate 10 "150"

/-- Claim C1: while the sequencer is in AWAITING_PROXIMITY, the
transition to AWAITING_SUCTION fires (at the next dispatch, for every
payload) iff the 10 most recently consumed readings all parsed strictly
inside (100, 200); 10 consumed readings of 150 put the gate in that
state, and in the 9-good / one-250 / 10-good scenario no transition is
pending at any point before exactly 20 readings have been consumed. -/
theorem proximity_gate_transition_iff :
    (∀ (msgs : List String) (st' : LFDState), processDist ⟨0, 0⟩ msgs = .running st' →
      ((∀ m, (stateOf (distance_listener_callback st' m)).excecution_stage = 1) ↔
        10 ≤ msgs.length ∧ (msgs.drop (msgs.length - 10)).all goodB = true)) ∧
    (processDist ⟨0, 0⟩ (List.replicate 10 "150") = .running ⟨0, 10⟩ ∧
      ∀ m, distance_listener_callback ⟨0, 10⟩ m = .exit ⟨1, 10⟩) ∧
    (processDist ⟨0, 0⟩ scenario2 = .running ⟨0, 10⟩ ∧
      ∀ k, k < 20 → noPending (processDist ⟨0, 0⟩ (scenario2.take k)) = true) := by
  refine ⟨?_, ⟨by decide, fun m => distance_cb_exit_of_ten rfl rfl m⟩,
    by decide, by decide⟩
  intro msgs st' h
  have hstage := processDist_stage msgs ⟨0, 0⟩ st' h
  obtain ⟨hcount, hle⟩ := processDist_count msgs st' h
  have htrail := trailLen_le_length msgs
  constructor
  · intro hall
    have h10 : st'.distance_count = 10 := by
      by_contra h10
      have hz := distance_cb_stage_zero_not_ten hstage h10 "0"
      rw [hall "0"] at hz
      exact absurd hz (by decide)
    have hlen : 10 ≤ msgs.length := by omega
    exact ⟨hlen, (trailLen_ten_iff msgs hlen).mp (by omega)⟩
  · rintro ⟨hlen, hgood⟩
    have h10 : st'.distance_count = 10 := by
      have := (trailLen_ten_iff msgs hlen).mpr hgood
      omega
    intro m
    rw [distance_cb_exit_of_ten hstage h10 m, h10]
    rfl

/-- Witness for C1 at concrete inputs: after ten consumed readings of
150 the next message (even an unparsable one) moves the stage to 1. -/
theorem proximity_gate_transition_iff_inst :
    (stateOf (distance_listener_callback ⟨0, 10⟩ "no data")).excecution_stage = 1 :=
  (proximity_gate_transition_iff.1 (List.replicate 10 "150") ⟨0, 10⟩
    (by decide)).mpr (by decide) "no data"

/-- Claim C10: once `distance_count` has reached 10 in AWAITING_PROXIMITY,
the next distance message causes the transition before its payload is
parsed: the callback raises `SystemExit` with the stage advanced, the
same result for every payload, so the parse branch is unreachable in
that state. -/
theorem count_ten_transition_unparsed :
    ∀ (st : LFDState) (m : String), st.excecution_stage = 0 → st.distance_count = 10 →
      distance_listener_callback st m = .exit ⟨1, 10⟩ := by
  intro st m h0 h10
  rw [distance_cb_exit_of_ten h0 h10 m, h10]

/-- Witness for C10: an unparsable payload still triggers the transition. -/
theorem count_ten_transition_unparsed_inst :
    distance_listener_callback ⟨0, 10⟩ "no data" = .exit ⟨1, 10⟩ :=
  count_ten_transition_unparsed ⟨0, 10⟩ "no data" rfl rfl

/-- Claim C5: a distance reading consumed in AWAITING_PROXIMITY with
extracted value v increments the counter when 100 < v < 200 and
otherwise resets it to zero; boundary values fall in the reset branch
like every other out-of-band value. -/
theorem distance_band_count_update :
    (∀ (st : LFDState) (m : String) (v : Rat), st.excecution_stage = 0 →
        st.distance_count ≠ 10 → extractNumber m = some v → 100 < v → v < 200 →
        distance_listener_callback st m =
          .normal { st with distance_count := st.distance_count + 1 }) ∧
    (∀ (st : LFDState) (m : String) (v : Rat), st.excecution_stage = 0 →
        st.distance_count ≠ 10 → extractNumber m = some v → ¬(100 < v ∧ v < 200) →
        distance_listener_callback st m = .normal { st with distance_count := 0 }) := by
  constructor
  · intro st m v h0 h10 hex h1 h2
    unfold distance_listener_callback
    rw [if_neg (by simp [h0]), if_neg h10]
    simp only [hex]
    rw [if_pos ⟨h1, h2⟩]
  · intro st m v h0 h10 hex hv
    unfold distance_listener_callback
    rw [if_neg (by simp [h0]), if_neg h10]
    simp only [hex]
    rw [if_neg hv]

/-- Witness for C5: the boundary value 200 resets the counter. -/
theorem distance_band_count_update_inst :
    distance_listener_callback ⟨0, 5⟩ "200" = .normal ⟨0, 0⟩ :=
  distance_band_count_update.2 ⟨0, 5⟩ "200" 200 rfl (by decide) (by decide) (by decide)

/-- Claim C9: a distance payload with no numeric token is not skipped:
the callback ends in the uncaught-parse-exception outcome, the rest of
the message list is not consumed, and the exception aborts
`proxy_pick_sequence` (only `SystemExit` is caught at that wait). -/
theorem malformed_payload_fatal :
    (∀ (st : LFDState) (m : String), st.excecution_stage = 0 → st.distance_count ≠ 10 →
        extractNumber m = none → distance_listener_callback st m = .parseError st) ∧
    (∀ (st : LFDState) (m : String) (rest : List String), st.excecution_stage = 0 →
        st.distance_count ≠ 10 → extractNumber m = none →
        processDist st (m :: rest) = .failed st rest) ∧
    (∀ w2, proxy_pick_sequence .parseFailure w2 = .error [Event.recorderStart]) ∧
    extractNumber "no data" = none := by
  have h1 : ∀ (st : LFDState) (m : String), st.excecution_stage = 0 →
      st.distance_count ≠ 10 → extractNumber m = none →
      distance_listener_callback st m = .parseError st := by
    intro st m h0 h10 hex
    unfold distance_listener_callback
    rw [if_neg (by simp [h0]), if_neg h10]
    simp only [hex]
  refine ⟨h1, ?_, fun w2 => rfl, by decide⟩
  intro st m rest h0 h10 hex
  simp only [processDist, h1 st m h0 h10 hex]

/-- Witness for C9. -/
theorem malformed_payload_fatal_inst :
    distance_listener_callback ⟨0, 0⟩ "no data" = .parseError ⟨0, 0⟩ :=
  malformed_payload_fatal.1 ⟨0, 0⟩ "no data" rfl (by decide) (by decide)

/-- Claim C6: the stage never decreases under either callback; a
pressure reading never alters the stored state at all; and a distance
reading arriving in any stage other than AWAITING_PROXIMITY returns
immediately with the state unchanged — in particular, after the suction
wait has ended (stage 1, AWAITING_RELEASE and beyond), no distance or
pressure reading changes stage or counter. -/
theorem stage_monotone_and_stable :
    (∀ (st : LFDState) (m : String),
        st.excecution_stage ≤ (stateOf (distance_listener_callback st m)).excecution_stage) ∧
    (∀ (st : LFDState) (p : PressureMsg), stateOf (pressure_listener_callback st p) = st) ∧
    (∀ (st : LFDState) (m : String), st.excecution_stage ≠ 0 →
        distance_listener_callback st m = .normal st) := by
  refine ⟨?_, ?_, ?_⟩
  · intro st m
    unfold distance_listener_callback
    by_cases h0 : st.excecution_stage ≠ 0
    · rw [if_pos h0]
      exact Nat.le_refl _
    · rw [if_neg h0]
      simp only [ne_eq, not_not] at h0
      by_cases h10 : st.distance_count = 10
      · rw [if_pos h10]
        simp [stateOf, h0]
      · rw [if_neg h10]
        cases hex : extractNumber m with
        | none => simp [stateOf]
        | some v =>
          by_cases hv : 100 < v ∧ v < 200
          · simp [stateOf, if_pos hv]
          · simp [stateOf, if_neg hv]
  · intro st p
    unfold pressure_listener_callback
    split
    · rfl
    · split
      · rfl
      · rfl
  · intro st m h0
    unfold distance_listener_callback
    rw [if_pos h0]

/-- Witness for C6: in stage 1 a distance reading leaves the state as is. -/
theorem stage_monotone_and_stable_inst :
    distance_listener_callback ⟨1, 10⟩ "150" = .normal ⟨1, 10⟩ :=
  stage_monotone_and_stable.2.2 ⟨1, 10⟩ "150" (by decide)

/-- Claim C4: in AWAITING_SUCTION the wait ends, by `SystemExit`
(the transition to AWAITING_RELEASE), exactly on a reading whose three
channels sum strictly below 2000; a sum of exactly 2000 returns
normally with the state untouched, and over a list of readings the
first low-sum reading ends the wait with no counting in between. -/
theorem suction_gate_first_low_sum :
    (∀ (st : LFDState) (p : PressureMsg), st.excecution_stage = 1 → psum p < 2000 →
        pressure_listener_callback st p = .exit st) ∧
    (∀ (st : LFDState) (p : PressureMsg), st.excecution_stage = 1 → psum p = 2000 →
        pressure_listener_callback st p = .normal st) ∧
    (∀ (st : LFDState) (ps : List PressureMsg) (p : PressureMsg) (rest : List PressureMsg),
        st.excecution_stage = 1 → (∀ q ∈ ps, ¬psum q < 2000) → psum p < 2000 →
        processPress st (ps ++ p :: rest) = .exited st rest) := by
  have hexit : ∀ (st : LFDState) (p : PressureMsg), st.excecution_stage = 1 →
      psum p < 2000 → pressure_listener_callback st p = .exit st := by
    intro st p h1 hlt
    unfold pressure_listener_callback
    rw [if_neg (by simp [h1]), if_pos hlt]
  have hnorm : ∀ (st : LFDState) (p : PressureMsg), st.excecution_stage = 1 →
      ¬psum p < 2000 → pressure_listener_callback st p = .normal st := by
    intro st p h1 hge
    unfold pressure_listener_callback
    rw [if_neg (by simp [h1]), if_neg hge]
  refine ⟨hexit, fun st p h1 heq => hnorm st p h1 (by rw [heq]; exact lt_irrefl _), ?_⟩
  intro st ps p rest h1 hall hlt
  induction ps with
  | nil => simp only [List.nil_append, processPress, hexit st p h1 hlt]
  | cons q qs ih =>
    simp only [List.cons_append, processPress,
      hnorm st q h1 (hall q (List.mem_cons_self q qs))]
    exact ih fun r hr => hall r (List.mem_cons_of_mem q hr)

/-- Witness for C4: the spec's scenario — sum 2100 is passed over, the
first sum-1800 reading ends the wait. -/
theorem suction_gate_first_low_sum_inst :
    processPress ⟨1, 10⟩ [⟨700, 700, 700⟩, ⟨600, 600, 600⟩] = .exited ⟨1, 10⟩ [] :=
  suction_gate_first_low_sum.2.2 ⟨1, 10⟩ [⟨700, 700, 700⟩] ⟨600, 600, 600⟩ [] rfl
    (by
      intro q hq
      simp only [List.mem_singleton] at hq
      subst hq
      simp only [psum, Rat.add_def']
      decide)
    (by simp only [psum, Rat.add_def']; decide)

/-- Claim C7: every pick invocation that runs to completion produces
exactly the trace recorder-start, distance wait, vacuum on, pressure
wait, fingers close, operator confirmation, fingers open, vacuum off,
recorder-stop: each actuator command once and in that order, recorder
started first and stopped last. -/
theorem pick_sequence_command_order :
    ∀ (w1 w2 : SpinEnd) (t : List Event), proxy_pick_sequence w1 w2 = .ok t →
      t = fullTrace ∧
      t.count (Event.vacuumCmd true) = 1 ∧ t.count (Event.fingersCmd true) = 1 ∧
      t.count (Event.fingersCmd false) = 1 ∧ t.count (Event.vacuumCmd false) = 1 ∧
      t.filter isActuatorCmd = [Event.vacuumCmd true, Event.fingersCmd true,
        Event.fingersCmd false, Event.vacuumCmd false] ∧
      t.head? = some Event.recorderStart ∧ t.getLast? = some Event.recorderStop := by
  intro w1 w2 t h
  cases w1 with
  | systemExit =>
    cases w2 with
    | systemExit =>
      simp only [proxy_pick_sequence, Except.ok.injEq] at h
      subst h
      exact ⟨rfl, by decide, by decide, by decide, by decide, by decide, rfl, rfl⟩
    | keyboardInterrupt =>
      simp only [proxy_pick_sequence, Except.ok.injEq] at h
      subst h
      exact ⟨rfl, by decide, by decide, by decide, by decide, by decide, rfl, rfl⟩
    | parseFailure => simp [proxy_pick_sequence] at h
  | keyboardInterrupt => simp [proxy_pick_sequence] at h
  | parseFailure => simp [proxy_pick_sequence] at h

/-- Witness for C7 at the nominal threshold-ended waits. -/
theorem pick_sequence_command_order_inst :
    fullTrace.count (Event.vacuumCmd true) = 1 :=
  (pick_sequence_command_order .systemExit .systemExit fullTrace rfl).2.1

/-- Claim C2 (the code as written): an operator interrupt during the
pressure wait is caught and the sequence completes with the full trace,
but the same interrupt during the distance wait is not caught (only
`SystemExit` is, line 132), so the sequence aborts right after the
recorder start and the vacuum-on command is never issued — despite the
node's own "Ctrl+c to skip waiting" message before that wait. -/
theorem distance_wait_interrupt_not_caught :
    proxy_pick_sequence .keyboardInterrupt .systemExit = .error [Event.recorderStart] ∧
    proxy_pick_sequence .systemExit .keyboardInterrupt = .ok fullTrace ∧
    proxy_pick_sequence .systemExit .systemExit = .ok fullTrace :=
  ⟨rfl, rfl, rfl⟩

/-- Claim C3: the extraction examples — the last maximal numeric token
of "dist=157.3mm" is "157.3" with value 157.3 (= 1573/10), "-12"
extracts to -12, and "no data" has no numeric token so extraction
fails. -/
theorem numeric_extraction_examples :
    reSearch "dist=157.3mm".data = some "157.3".data ∧
    extractNumber "dist=157.3mm" = some (mkRat 1573 10) ∧
    (mkRat 1573 10 : Rat) = 1573 / 10 ∧
    extractNumber "-12" = some (-12 : Rat) ∧
    extractNumber "no data" = none := by
  refine ⟨by decide, by decide, ?_, by decide, by decide⟩
  rw [Rat.mkRat_eq_divInt, Rat.divInt_eq_div]
  norm_num

/-! ### Helper lemmas: rosbag naming -/

theorem charVal_digitChar {d : Nat} (h : d < 10) : charVal (digitChar d) = d := by
  interval_cases d <;> decide

theorem digitsVal_append_singleton (l : List Char) (c : Char) :
    digitsVal (l ++ [c]) = 10 * digitsVal l + charVal c := by
  simp [digitsVal, List.foldl_append]

theorem digitsVal_natDigitsFuel : ∀ f n : Nat, n < f →
    digitsVal (natDigitsFuel f n) = n := by
  intro f
  induction f with
  | zero => intro n h; omega
  | succ f ih =>
    intro n h
    rw [natDigitsFuel]
    by_cases h10 : n < 10
    · rw [if_pos h10]
      simp [digitsVal, charVal_digitChar h10]
    · rw [if_neg h10, digitsVal_append_singleton, ih (n / 10) (by omega),
        charVal_digitChar (by omega : n % 10 < 10)]
      omega

theorem natToStr_inj {a b : Nat} (h : natToStr a = natToStr b) : a = b := by
  have ha := digitsVal_natDigitsFuel (a + 1) a (Nat.lt_succ_self a)
  have hb := digitsVal_natDigitsFuel (b + 1) b (Nat.lt_succ_self b)
  have hd : natDigitsFuel (a + 1) a = natDigitsFuel (b + 1) b := congrArg String.data h
  rw [← ha, ← hb, hd]

theorem str_data_append (a b : String) : (a ++ b).data = a.data ++ b.data := by
  cases a; cases b; rfl

theorem bagName_inj {pre : String} {a b : Nat} (h : bagName pre a = bagName pre b) :
    a = b := by
  apply natToStr_inj
  have h' := congrArg String.data h
  unfold bagName at h'
  rw [str_data_append, str_data_append, str_data_append, str_data_append] at h'
  exact congrArg String.mk (List.append_cancel_left h')

theorem bagLoop_succ (disk : List String) (pre : String) (f n : Nat) :
    bagLoop disk pre (f + 1) n =
      if bagName pre n ∈ disk then bagLoop disk pre f (n + 1) else n := rfl

theorem bagLoop_ge (disk : List String) (pre : String) :
    ∀ f n : Nat, n ≤ bagLoop disk pre f n := by
  intro f
  induction f with
  | zero => intro n; exact Nat.le_refl n
  | succ f ih =>
    intro n
    rw [bagLoop_succ]
    split
    · exact Nat.le_trans (Nat.le_succ n) (ih (n + 1))
    · exact Nat.le_refl n

theorem bagLoop_taken (disk : List String) (pre : String) :
    ∀ f n j : Nat, n ≤ j → j < bagLoop disk pre f n → bagName pre j ∈ disk := by
  intro f
  induction f with
  | zero => intro n j h1 h2; rw [bagLoop] at h2; omega
  | succ f ih =>
    intro n j h1 h2
    rw [bagLoop_succ] at h2
    by_cases hmem : bagName pre n ∈ disk
    · rw [if_pos hmem] at h2
      rcases Nat.eq_or_lt_of_le h1 with rfl | hlt
      · exact hmem
      · exact ih (n + 1) j hlt h2
    · rw [if_neg hmem] at h2
      omega

theorem bagLoop_free (disk : List String) (pre : String) :
    ∀ f n : Nat, (∃ j, n ≤ j ∧ j < n + f ∧ bagName pre j ∉ disk) →
      bagName pre (bagLoop disk pre f n) ∉ disk := by
  intro f
  induction f with
  | zero =>
    intro n hj
    obtain ⟨j, h1, h2, h3⟩ := hj
    omega
  | succ f ih =>
    intro n hj
    obtain ⟨j, h1, h2, h3⟩ := hj
    rw [bagLoop_succ]
    by_cases hmem : bagName pre n ∈ disk
    · rw [if_pos hmem]
      apply ih (n + 1)
      refine ⟨j, ?_, by omega, h3⟩
      rcases Nat.eq_or_lt_of_le h1 with rfl | hlt
      · exact absurd hmem h3
      · omega
    · rw [if_neg hmem]
      exact hmem

theorem exists_free_suffix (disk : List String) (pre : String) :
    ∃ j, 1 ≤ j ∧ j < 1 + (disk.length + 1) ∧ bagName pre j ∉ disk := by
  by_contra hcon
  push_neg at hcon
  set l := (List.range (disk.length + 1)).map (fun k => bagName pre (k + 1)) with hl
  have hsub : ∀ x ∈ l, x ∈ disk := by
    intro x hx
    rw [hl] at hx
    simp only [List.mem_map, List.mem_range] at hx
    obtain ⟨k, hk, rfl⟩ := hx
    exact hcon (k + 1) (by omega) (by omega)
  have hnodup : l.Nodup := by
    rw [hl]
    refine List.Nodup.map ?_ (List.nodup_range _)
    intro a b hab
    have := bagName_inj hab
    omega
  have hcard : l.toFinset.card = disk.length + 1 := by
    rw [List.toFinset_card_of_nodup hnodup, hl]
    simp
  have hle : l.toFinset.card ≤ disk.toFinset.card := by
    apply Finset.card_le_card
    intro x hx
    rw [List.mem_toFinset] at hx ⊢
    exact hsub x hx
  have hdisk := List.toFinset_card_le (l := disk)
  omega

/-- Claim C8: the chosen rosbag suffix is at least 1, its destination
name is not on disk, every smaller positive suffix is taken, and with
suffixes 1 and 2 on disk the chosen suffix is 3. -/
theorem rosbag_first_free_suffix :
    (∀ (disk : List String) (pre : String),
        1 ≤ rosbag_number disk pre ∧
        bagName pre (rosbag_number disk pre) ∉ disk ∧
        ∀ k, 1 ≤ k → k < rosbag_number disk pre → bagName pre k ∈ disk) ∧
    (∀ pre : String, rosbag_number [bagName pre 1, bagName pre 2] pre = 3) := by
  constructor
  · intro disk pre
    refine ⟨bagLoop_ge disk pre _ 1, ?_, ?_⟩
    · exact bagLoop_free disk pre (disk.length + 1) 1 (exists_free_suffix disk pre)
    · intro k h1 h2
      exact bagLoop_taken disk pre (disk.length + 1) 1 k h1 h2
  · intro pre
    have m1 : bagName pre 1 ∈ [bagName pre 1, bagName pre 2] :=
      List.mem_cons_self _ _
    have m2 : bagName pre 2 ∈ [bagName pre 1, bagName pre 2] := by simp
    have m3 : bagName pre 3 ∉ [bagName pre 1, bagName pre 2] := by
      intro hmem
      simp only [List.mem_cons, List.not_mem_nil, or_false] at hmem
      rcases hmem with h | h
      · exact absurd (bagName_inj h) (by decide)
      · exact absurd (bagName_inj h) (by decide)
    show bagLoop [bagName pre 1, bagName pre 2] pre (2 + 1) 1 = 3
    rw [bagLoop_succ, if_pos m1]
    show bagLoop [bagName pre 1, bagName pre 2] pre (1 + 1) 2 = 3
    rw [bagLoop_succ, if_pos m2]
    show bagLoop [bagName pre 1, bagName pre 2] pre (0 + 1) 3 = 3
    rw [bagLoop_succ, if_neg m3]

/-- Witness for C8: with sessions 1 and 2 on disk, suffix 1 is reported
taken by the minimality clause. -/
theorem rosbag_first_free_suffix_inst :
    bagName "x" 1 ∈ [bagName "x" 1, bagName "x" 2] :=
  (rosbag_first_free_suffix.1 [bagName "x" 1, bagName "x" 2] "x").2.2 1
    (by decide) (by decide)
